import Mathlib

/-!
Verification of the hybrid retrieval / ingestion core (RCA-SaaS).

Shallow embedding conventions:
* Python strings are modelled as `List Char` (`PyStr`): Python indexing,
  slicing and `len` are per code point, which `List Char` matches exactly and,
  unlike Lean `String`, reduces inside the kernel.
* `str.split()` (no argument: split on whitespace runs, dropping empties),
  `" ".join`, `str.strip()` and `s[:n]` are re-implemented structurally as
  `pySplit`, `joinSpace`, `pyStrip`, `List.take`.
* Database state is a list of `Row` in insertion order; SQL effects
  (`INSERT ... ON CONFLICT (text_hash) DO NOTHING`, `SELECT DISTINCT`,
  `SELECT COUNT(*)`) are modelled as pure list operations.
* The embedding model (`SentenceTransformer.encode`) and the SHA-256 digest
  are opaque external functions; definitions take them as parameters
  (`embed : PyStr → List ℚ`, `hashFn : PyStr → PyStr`).  Vector components
  are rationals; the pgvector `<->` Euclidean distance is modelled by the
  squared L2 distance `l2sq`, which is nonnegative and induces the same
  ordering, the only properties searching depends on.
* The `while i < len(words)` loop of `chunk` is written with an explicit
  fuel argument so that it is structurally recursive; `chunkAux_fuel_irrel`
  shows the chosen fuel (`words.length`) is irrelevant, i.e. the embedding
  computes the loop's true fixpoint.
-/

namespace RCA

/-- Python `str` as a list of characters. -/
abbrev PyStr := List Char

/-- Coerce a Lean string literal to the `PyStr` model. -/
def pys (s : String) : PyStr := s.toList

/-- Helper for Python `str.split()`: accumulates the current word (reversed). -/
def splitWsAux : List Char → List Char → List PyStr
  | [], acc => if acc = [] then [] else [acc.reverse]
  | c :: cs, acc =>
    if c.isWhitespace then
      if acc = [] then splitWsAux cs [] else acc.reverse :: splitWsAux cs []
    else splitWsAux cs (c :: acc)

/-- Python `text.split()` with no separator: split on whitespace runs,
dropping empty pieces. -/
def pySplit (s : PyStr) : List PyStr := splitWsAux s []

/-- Python `" ".join(parts)`. -/
def joinSpace (parts : List PyStr) : PyStr := List.intercalate [' '] parts

/-- Python `s.strip()`: remove leading and trailing whitespace. -/
def pyStrip (s : PyStr) : PyStr :=
  ((s.dropWhile Char.isWhitespace).reverse.dropWhile Char.isWhitespace).reverse

/-! ### indexer/embeddings.py -/

/-- Loop body of `chunk` (indexer/embeddings.py lines 23-26):
`while i < len(words): yield " ".join(words[i:i+size]); i += max(1, size-overlap)`.
`fuel` only bounds the recursion depth; see `chunkAux_fuel_irrel`. -/
def chunkAux (words : List PyStr) (size overlap : Nat) : Nat → Nat → List PyStr
  | _, 0 => []
  | i, fuel + 1 =>
    if i < words.length then
      joinSpace ((words.drop i).take size) ::
        chunkAux words size overlap (i + max 1 (size - overlap)) fuel
    else []

/-- The source's defaults: `chunk(text, size=1800, overlap=250)`. -/
def CHUNK_SIZE : Nat := 1800

/-- Default overlap of `chunk`. -/
def CHUNK_OVERLAP : Nat := 250

/-- indexer/embeddings.py `chunk`: split `text` into overlapping word windows.
Mirrors the source: empty text or empty word list yields nothing, otherwise
windows of `size` words starting at multiples of `max 1 (size - overlap)`. -/
def chunk (text : PyStr) (size overlap : Nat) : List PyStr :=
  if text = [] then []
  else
    let words := pySplit text
    if words = [] then []
    else chunkAux words size overlap 0 words.length

/-- A source document record, as read from the anonymized JSON files.
Absent JSON fields are `none`. -/
structure SrcRecord where
  issue_key : Option PyStr
  service : Option PyStr
  text : Option PyStr
  summary : Option PyStr
  description : Option PyStr
  resolution : Option PyStr
deriving DecidableEq

/-- indexer/embeddings.py `build_text`: concatenate the truthy fields
`text`, `summary`, `description`, `resolution` (in that order), join with a
space and strip. -/
def build_text (r : SrcRecord) : PyStr :=
  let parts := ([r.text, r.summary, r.description, r.resolution].filterMap id).filter
    (fun v => v ≠ [])
  pyStrip (joinSpace parts)

/-- indexer/embeddings.py `make_snippet`: whitespace-normalized prefix of at
most `n` characters. -/
def make_snippet (s : PyStr) (n : Nat) : PyStr :=
  if s = [] then s else (joinSpace (pySplit s)).take n

/-- One row of the `documents` table (schema in `ensure_schema`).  The
`id`/`created_at` columns play no role in any claim and are omitted;
nullable columns are `Option`. -/
structure Row where
  issue_key : Option PyStr
  service : Option PyStr
  snippet : Option PyStr
  text_chunk : Option PyStr
  text_hash : Option PyStr
  embedding : List ℚ
deriving DecidableEq

/-- Does a stored row conflict with a new row carrying hash `h`?  Postgres
`ON CONFLICT (text_hash)` fires only when both hashes are non-NULL and
equal (NULLs never compare equal under a UNIQUE constraint). -/
def hashMatches (h : Option PyStr) (row : Row) : Bool :=
  match h with
  | some a => decide (row.text_hash = some a)
  | none => false

/-- Is the hash `h` present in the store? -/
def hashPresent (s : List Row) (h : PyStr) : Bool := s.any (hashMatches (some h))

/-- The indexer's `INSERT ... ON CONFLICT (text_hash) DO NOTHING`
(indexer/embeddings.py lines 113-127): insert-if-absent keyed by
`text_hash`; a duplicate hash is a silent no-op, never an error. -/
def upsertChunk (s : List Row) (r : Row) : List Row :=
  if s.any (hashMatches r.text_hash) then s else s ++ [r]

/-- The row the indexer inserts for one chunk `ch` of record `r`. -/
def chunkRow (hashFn : PyStr → PyStr) (embed : PyStr → List ℚ)
    (r : SrcRecord) (snip ch : PyStr) : Row :=
  { issue_key := r.issue_key, service := r.service, snippet := some snip,
    text_chunk := some ch, text_hash := some (hashFn ch), embedding := embed ch }

/-- indexer/embeddings.py `main`, per-record body (lines 102-129): build the
text, skip it if empty, build one snippet, then upsert one row per chunk. -/
def ingestRecord (hashFn : PyStr → PyStr) (embed : PyStr → List ℚ)
    (s : List Row) (r : SrcRecord) : List Row :=
  let text_full := build_text r
  if text_full = [] then s
  else
    let snip := make_snippet text_full 220
    (chunk text_full CHUNK_SIZE CHUNK_OVERLAP).foldl
      (fun st ch => upsertChunk st (chunkRow hashFn embed r snip ch)) s

/-- indexer/embeddings.py `main`: run the ingestion pipeline over a document
set (the concatenation of all records of all JSON files, in order). -/
def runPipeline (hashFn : PyStr → PyStr) (embed : PyStr → List ℚ)
    (s : List Row) (docs : List SrcRecord) : List Row :=
  docs.foldl (ingestRecord hashFn embed) s

/-! ### retriever/hybrid_search.py -/

/-- An `issue_key` value as stored: the column is nullable. -/
abbrev Key := Option PyStr

/-- One result row of `_search_with_vector`: `(issue_key, snippet, score)`. -/
abbrev Hit := Key × PyStr × ℚ

/-- Default `TOP_K` (`int(os.getenv("TOP_K", 5))`). -/
def TOP_K_DEFAULT : Int := 5

/-- Python `int(top_k or TOP_K_DEFAULT)`: `None` and `0` are falsy and fall
back to the default. -/
def pyIntOr (x : Option Int) (d : Int) : Int :=
  match x with
  | none => d
  | some v => if v = 0 then d else v

/-- Squared Euclidean distance.  pgvector's `<->` is the Euclidean distance
`sqrt (l2sq a b)`; the square root is order-preserving and sign-preserving,
which are the only properties of the metric the engine relies on, so the
model uses the squared form (exact over ℚ). -/
def l2sq (a b : List ℚ) : ℚ := (List.zipWith (fun x y => (x - y) ^ 2) a b).sum

/-- The SQL `WHERE service = %s` filter: with a filter, NULL `service` never
matches; without one, every row passes. -/
def serviceMatch (service : Option PyStr) (r : Row) : Bool :=
  match service with
  | none => true
  | some sv => decide (r.service = some sv)

/-- The SQL `LEFT(text_chunk, 300) AS snippet` projection. -/
def rowSnippet (r : Row) : PyStr := (r.text_chunk.getD []).take 300

/-- Distinct values in first-appearance order, modelling `SELECT DISTINCT ON
(issue_key)` / `SELECT DISTINCT issue_key` (SQL leaves the order of the
distinct values unspecified; the claims never depend on it). -/
def dedupKeys (l : List Key) : List Key :=
  l.foldl (fun acc k => if k ∈ acc then acc else acc ++ [k]) []

/-- The row of minimal distance to `qv` (first one on ties), modelling
`DISTINCT ON (issue_key) ... ORDER BY issue_key, dist ASC`. -/
def argminDist (qv : List ℚ) (r0 : Row) (rest : List Row) : Row :=
  rest.foldl (fun b r => if l2sq r.embedding qv < l2sq b.embedding qv then r else b) r0

/-- Stable insertion into a score-descending list: the new element goes after
every element with a score at least as large. -/
def insertDesc (x : Hit) : List Hit → List Hit
  | [] => [x]
  | y :: ys => if x.2.2 > y.2.2 then x :: y :: ys else y :: insertDesc x ys

/-- Stable sort by score descending, modelling the SQL `ORDER BY score DESC`
and Python's stable `list.sort(key=..., reverse=True)`. -/
def sortDesc (l : List Hit) : List Hit := l.foldl (fun acc x => insertDesc x acc) []

/-- retriever/hybrid_search.py `_search_with_vector` (lines 103-142): filter
by service, take each issue_key's closest chunk, score it `- dist`, order by
score descending, return at most `limit` rows. -/
def searchWithVector (store : List Row) (qvec : List ℚ) (limit : Nat)
    (service : Option PyStr) : List Hit :=
  let rows := store.filter (serviceMatch service)
  let hits := (dedupKeys (rows.map (fun r => r.issue_key))).filterMap (fun k =>
    match rows.filter (fun r => decide (r.issue_key = k)) with
    | [] => none
    | r0 :: rest =>
      let best := argminDist qvec r0 rest
      some (k, rowSnippet best, -(l2sq best.embedding qvec)))
  (sortDesc hits).take limit

/-- The per-ticket merge state of `search` (the dict values of `combined`). -/
structure Cand where
  snippet : PyStr
  score_orig : ℚ
  score_reph : ℚ
deriving DecidableEq

/-- The body of `add_rows` applied to one candidate entry
(retriever/hybrid_search.py lines 203-213): keep the longest non-empty
snippet, and the maximum score of the named channel. -/
def updCand (isOrig : Bool) (sn : PyStr) (sc : ℚ) (c : Cand) : Cand :=
  let c1 := if sn ≠ [] ∧ sn.length > c.snippet.length then
    { c with snippet := sn } else c
  if isOrig then { c1 with score_orig := max c1.score_orig sc }
  else { c1 with score_reph := max c1.score_reph sc }

/-- `combined.setdefault(issue_key, {...})` then the updates: the merge map
is an insertion-ordered association list, as a Python dict is. -/
def addOne (isOrig : Bool) (m : List (Key × Cand)) (hit : Hit) : List (Key × Cand) :=
  match m with
  | [] => [(hit.1, updCand isOrig hit.2.1 hit.2.2 (Cand.mk hit.2.1 0 0))]
  | e :: rest =>
    if e.1 = hit.1 then (e.1, updCand isOrig hit.2.1 hit.2.2 e.2) :: rest
    else e :: addOne isOrig rest hit

/-- retriever/hybrid_search.py `add_rows`: fold one channel's result rows
into the merge map (`isOrig = true` for the raw channel's `score_orig`). -/
def addRows (isOrig : Bool) (m : List (Key × Cand)) (rows : List Hit) :
    List (Key × Cand) :=
  rows.foldl (addOne isOrig) m

/-- Fusion weights of the source (`final_score = 0.6 * score_orig + 0.4 *
score_reph`). -/
def W_RAW : ℚ := 6 / 10

/-- Rephrased-channel fusion weight. -/
def W_REPH : ℚ := 4 / 10

/-- The fusion step of `search` (retriever/hybrid_search.py lines 215-227):
merge both channels, then map every candidate to its weighted final score. -/
def fuseCandidates (rows_orig rows_reph : List Hit) : List Hit :=
  let m := addRows false (addRows true [] rows_orig) rows_reph
  m.map (fun kc => (kc.1, kc.2.snippet, W_RAW * kc.2.score_orig + W_REPH * kc.2.score_reph))

/-- Error raised by `search` when the table has no rows at call time. -/
inductive SearchError where
  | noDocuments
deriving DecidableEq

/-- retriever/hybrid_search.py `_count_documents`: `SELECT COUNT(*)`. -/
def count_documents (store : List Row) : Nat := store.length

/-- retriever/hybrid_search.py `search` (lines 145-231).  The embedding
model and the rephrase function are opaque parameters; `top_k = none` is
Python's `top_k=None`.  Returns `Except` to model the `NoDocumentsError`
raise. -/
def search (store : List Row) (embed : PyStr → List ℚ) (rephraseFn : PyStr → PyStr)
    (q : PyStr) (top_k : Option Int) (use_rephrase : Bool) (service : Option PyStr) :
    Except SearchError (List Hit) :=
  let k : Nat := (max 1 (min 100 (pyIntOr top_k TOP_K_DEFAULT))).toNat
  let k_sql := max (k * 2) (k + 5)
  let qvec_orig := embed q
  let qvec_rephrased : Option (List ℚ) :=
    if use_rephrase then
      let q_rephrased := rephraseFn q
      if q_rephrased ≠ [] ∧ pyStrip q_rephrased ≠ [] ∧ pyStrip q_rephrased ≠ pyStrip q
      then some (embed q_rephrased) else none
    else none
  if count_documents store = 0 then .error .noDocuments
  else
    let rows_orig := searchWithVector store qvec_orig k_sql service
    let rows_reph := match qvec_rephrased with
      | some v => searchWithVector store v k_sql service
      | none => []
    .ok ((sortDesc (fuseCandidates rows_orig rows_reph)).take k)

/-! ### retriever/ingest_new.py -/

/-- Is the (non-NULL) issue key `k` already present in the store?  This is
the `issue_key in existing_keys` test against `SELECT DISTINCT issue_key`. -/
def keyPresent (store : List Row) (k : PyStr) : Bool :=
  store.any (fun row => decide (row.issue_key = some k))

/-- The row `ingest_new_tickets` inserts (lines 74-79): only `issue_key`,
`text_chunk` and `embedding` are named in the INSERT column list, so every
other nullable column is NULL. -/
def reconRow (embed : PyStr → List ℚ) (p : PyStr × PyStr) : Row :=
  { issue_key := some p.1, service := none, snippet := none,
    text_chunk := some p.2, text_hash := none, embedding := embed p.2 }

/-- retriever/ingest_new.py `ingest_new_tickets` (lines 42-82): `staged` is
the output of `_load_csv_rows` (pairs with empty key or text already
dropped).  Returns `(count inserted, new store)`. -/
def ingest_new_tickets (embed : PyStr → List ℚ) (staged : List (PyStr × PyStr))
    (store : List Row) : Nat × List Row :=
  if staged = [] then (0, store)
  else
    let to_insert := staged.filter (fun p => ! keyPresent store p.1)
    if to_insert = [] then (0, store)
    else (to_insert.length, store ++ to_insert.map (reconRow embed))

/-! ### llm/rephrase.py -/

/-- Outcome of the HTTP call to the LLM provider inside the `try` block:
`fail` is any raised exception (unreachable provider, non-2xx status, bad
JSON), `ok resp` a parsed body whose `"response"` field is `resp`
(`none` when absent, matching `data.get("response")`). -/
inductive LLMResult where
  | fail : LLMResult
  | ok : Option PyStr → LLMResult
deriving DecidableEq

/-- llm/rephrase.py `rephrase_issue` (lines 35-70) with the provider call's
outcome as an explicit parameter (`max_len` defaults to 600 in the source). -/
def rephrase_issue (text : PyStr) (max_len : Nat) (outcome : LLMResult) : PyStr :=
  if text = [] ∨ (pyStrip text).length < 30 then pyStrip text
  else
    match outcome with
    | .fail => pyStrip text
    | .ok resp =>
      let result := pyStrip (resp.getD [])
      if result = [] then pyStrip text
      else if result.length > max_len then result.take max_len
      else result

/-- The failure paths of `rephrase_issue`: a raised exception anywhere in
the `try` block, a body without a `"response"` field, or a response that
strips to the empty string (`if not result`, rephrase.py lines 58-60). -/
def degradedOutcome : LLMResult → Prop
  | .fail => True
  | .ok none => True
  | .ok (some resp) => pyStrip resp = []

/-! ### ensure_schema (indexer/embeddings.py lines 29-57 and
retriever/hybrid_search.py lines 30-62, identical in structure) -/

/-- The persisted DDL state relevant to `ensure_schema`: the `documents`
table's vector column dimension (`none` when the table is absent) and the
two indexes. -/
structure DBSchema where
  table_dim : Option Nat
  idx_key : Bool
  idx_emb : Bool
deriving DecidableEq

/-- `ensure_schema`: three `CREATE ... IF NOT EXISTS` statements.  `CREATE
TABLE IF NOT EXISTS` is a no-op when the table exists, whatever its column
types, so an existing table keeps its dimension; no statement can fail, so
the model is a total function. -/
def ensure_schema (dim : Nat) (s : DBSchema) : DBSchema :=
  let s1 : DBSchema :=
    match s.table_dim with
    | none => { s with table_dim := some dim }
    | some _ => s
  { s1 with idx_key := true, idx_emb := true }

/-! ### Definitions used by the lemmas and claim statements below -/

/-- All hashes of a record's chunks are present in the store. -/
def recIngested (hashFn : PyStr → PyStr) (s : List Row) (r : SrcRecord) : Prop :=
  ∀ ch ∈ chunk (build_text r) CHUNK_SIZE CHUNK_OVERLAP, hashPresent s (hashFn ch) = true

/-- Lookup in the merge map (Python dict access by key). -/
def lookupCand (m : List (Key × Cand)) (k : Key) : Option Cand :=
  (m.find? (fun e => decide (e.1 = k))).map (fun e => e.2)

/-- Raw-channel score of key `k` in the merge map, 0 when absent. -/
def scoreO (m : List (Key × Cand)) (k : Key) : ℚ :=
  ((lookupCand m k).map Cand.score_orig).getD 0

/-- Rephrased-channel score of key `k` in the merge map, 0 when absent. -/
def scoreR (m : List (Key × Cand)) (k : Key) : ℚ :=
  ((lookupCand m k).map Cand.score_reph).getD 0

/-- The channel term of the fusion formula: the fold of `max` over the
channel's scores for the ticket, seeded with the dict's initial `0.0`. -/
def chanMax (l : List ℚ) : ℚ := l.foldl max 0

/-- The scores a ticket collects in one channel's result rows. -/
def scoresOf (k : Key) (rows : List Hit) : List ℚ :=
  (rows.filter (fun hit => decide (hit.1 = k))).map (fun hit => hit.2.2)

/-- Witness document for C1. -/
def wDocC1 : SrcRecord :=
  { issue_key := some (pys "K1"), service := none,
    text := some (pys "printer on fire in building three"), summary := none,
    description := none, resolution := none }

/-- Witness row for C1 (its hash is already in the one-row store). -/
def wRowC1 : Row :=
  { issue_key := some (pys "K1"), service := none, snippet := none,
    text_chunk := some (pys "t"), text_hash := some (pys "h"), embedding := [] }

/-- Two-row store used in the C4 counterexample and witness. -/
def cexStoreC4 : List Row :=
  [{ issue_key := some (pys "K1"), service := none, snippet := none,
     text_chunk := some (pys "t1"), text_hash := some (pys "h1"), embedding := [] },
   { issue_key := some (pys "K2"), service := none, snippet := none,
     text_chunk := some (pys "t2"), text_hash := some (pys "h2"), embedding := [] }]

/-- Witness document for C5. -/
def wDocC5 : SrcRecord :=
  { issue_key := some (pys "K7"), service := none,
    text := some (pys "payment gateway returns http 500 on checkout"), summary := none,
    description := none, resolution := none }

/-! ## General lemmas about the embedding -/

/-- Once the loop index has passed the word count, `chunk`'s loop stops,
whatever fuel remains. -/
lemma chunkAux_stop (words : List PyStr) (size overlap : Nat) :
    ∀ fuel i, words.length ≤ i → chunkAux words size overlap i fuel = [] := by
  intro fuel i h
  cases fuel with
  | zero => rfl
  | succ n => simp only [chunkAux, Nat.not_lt.2 h, if_false]

/-- One unfolding of `chunk`'s loop while the index is in range. -/
lemma chunkAux_cons (words : List PyStr) (size overlap : Nat) {fuel i : Nat}
    (hf : 0 < fuel) (hi : i < words.length) :
    chunkAux words size overlap i fuel =
      joinSpace ((words.drop i).take size) ::
        chunkAux words size overlap (i + max 1 (size - overlap)) (fuel - 1) := by
  cases fuel with
  | zero => omega
  | succ n => simp only [chunkAux, hi, if_true, Nat.succ_sub_one]

/-- The fuel argument is irrelevant as soon as it covers the remaining
words: the fuel-based recursion computes the true fixpoint of the source's
`while i < len(words)` loop (the stride is at least 1). -/
lemma chunkAux_fuel_irrel (words : List PyStr) (size overlap : Nat) :
    ∀ f1 f2 i, words.length - i ≤ f1 → words.length - i ≤ f2 →
      chunkAux words size overlap i f1 = chunkAux words size overlap i f2 := by
  intro f1
  induction f1 with
  | zero =>
    intro f2 i h1 h2
    rw [chunkAux_stop words size overlap 0 i (by omega),
      chunkAux_stop words size overlap f2 i (by omega)]
  | succ n ih =>
    intro f2 i h1 h2
    by_cases hi : i < words.length
    · have hst : 1 ≤ max 1 (size - overlap) := le_max_left 1 _
      have hf2 : 0 < f2 := by omega
      rw [chunkAux_cons words size overlap (Nat.succ_pos n) hi,
        chunkAux_cons words size overlap hf2 hi]
      exact congrArg _ (ih (f2 - 1) (i + max 1 (size - overlap)) (by omega) (by omega))
    · rw [chunkAux_stop words size overlap _ i (by omega),
        chunkAux_stop words size overlap f2 i (by omega)]

/-- Chunk count of the loop: one window per stride-multiple below
`words.length`, i.e. `⌈(words.length - i) / stride⌉` windows from index `i`. -/
lemma chunkAux_length (words : List PyStr) (size overlap : Nat) :
    ∀ fuel i, words.length - i ≤ fuel → i < words.length →
      (chunkAux words size overlap i fuel).length =
        (words.length - i + max 1 (size - overlap) - 1) / max 1 (size - overlap) := by
  intro fuel
  induction fuel with
  | zero => intro i hle hlt; omega
  | succ n ih =>
    intro i hle hlt
    have hst : 1 ≤ max 1 (size - overlap) := le_max_left 1 _
    set st := max 1 (size - overlap) with hstdef
    rw [chunkAux_cons words size overlap (Nat.succ_pos n) hlt]
    by_cases h2 : i + st < words.length
    · rw [List.length_cons, Nat.succ_sub_one, ih (i + st) (by omega) h2]
      have harith : words.length - i + st - 1 = (words.length - (i + st) + st - 1) + st := by
        omega
      rw [harith, Nat.add_div_right _ (by omega : 0 < st)]
    · rw [Nat.succ_sub_one, chunkAux_stop words size overlap n (i + st) (by omega),
        List.length_cons, List.length_nil]
      exact (Nat.div_eq_of_lt_le (by omega) (by omega)).symm

/-- Splitting the empty text yields no words. -/
lemma pySplit_nil : pySplit [] = [] := rfl

/-- Length of `chunk` when the text has at least one word: the ceiling of
`word count / stride` with stride `max 1 (size - overlap)`. -/
lemma chunk_length (text : PyStr) (size overlap : Nat) (hw : pySplit text ≠ []) :
    (chunk text size overlap).length =
      ((pySplit text).length + max 1 (size - overlap) - 1) / max 1 (size - overlap) := by
  have htext : text ≠ [] := by
    intro h
    exact hw (h ▸ pySplit_nil)
  have hlen : 0 < (pySplit text).length := List.length_pos.2 hw
  rw [chunk, if_neg htext, if_neg hw]
  simpa using chunkAux_length (pySplit text) size overlap (pySplit text).length 0
    (by omega) (by omega)

/-- Upsert either leaves the store alone or appends the one new row. -/
lemma upsertChunk_cases (s : List Row) (r : Row) :
    upsertChunk s r = s ∨ upsertChunk s r = s ++ [r] := by
  rw [upsertChunk]
  split
  · exact Or.inl rfl
  · exact Or.inr rfl

/-- Upserting never removes a hash from the store. -/
lemma hashPresent_upsert_mono {s : List Row} {h : PyStr} (r : Row)
    (hp : hashPresent s h = true) : hashPresent (upsertChunk s r) h = true := by
  rcases upsertChunk_cases s r with e | e <;> rw [e]
  · exact hp
  · rw [hashPresent] at hp ⊢
    simp [List.any_append, hp]

/-- Upserting a row whose hash is already present is a silent no-op. -/
lemma upsertChunk_noop {s : List Row} {r : Row} {h : PyStr}
    (hh : r.text_hash = some h) (hp : hashPresent s h = true) : upsertChunk s r = s := by
  rw [hashPresent] at hp
  rw [upsertChunk, hh, if_pos hp]

/-- After upserting a row with hash `h`, the hash is present. -/
lemma upsertChunk_establishes {r : Row} {h : PyStr} (s : List Row)
    (hh : r.text_hash = some h) : hashPresent (upsertChunk s r) h = true := by
  rw [upsertChunk, hh]
  split
  · assumption
  · rw [hashPresent]
    simp [List.any_append, hashMatches, hh]

/-- Folding chunk upserts never removes a hash. -/
lemma foldl_upsert_mono (f : PyStr → Row) {h : PyStr} :
    ∀ (chunks : List PyStr) (s : List Row), hashPresent s h = true →
      hashPresent (chunks.foldl (fun st ch => upsertChunk st (f ch)) s) h = true := by
  intro chunks
  induction chunks with
  | nil => intro s hp; exact hp
  | cons c cs ih =>
    intro s hp
    exact ih (upsertChunk s (f c)) (hashPresent_upsert_mono (f c) hp)

/-- After folding the upserts of all chunks, every chunk's hash is present. -/
lemma foldl_upsert_establishes (f : PyStr → Row) (g : PyStr → PyStr)
    (hf : ∀ ch, (f ch).text_hash = some (g ch)) :
    ∀ (chunks : List PyStr) (s : List Row) (ch : PyStr), ch ∈ chunks →
      hashPresent (chunks.foldl (fun st c => upsertChunk st (f c)) s) (g ch) = true := by
  intro chunks
  induction chunks with
  | nil => intro s ch hmem; cases hmem
  | cons c cs ih =>
    intro s ch hmem
    rcases List.mem_cons.1 hmem with e | hmem2
    · subst e
      exact foldl_upsert_mono f cs _ (upsertChunk_establishes s (hf ch))
    · exact ih _ ch hmem2

/-- Folding the upserts of chunks whose hashes are all present changes
nothing. -/
lemma foldl_upsert_noop (f : PyStr → Row) (g : PyStr → PyStr)
    (hf : ∀ ch, (f ch).text_hash = some (g ch)) :
    ∀ (chunks : List PyStr) (s : List Row),
      (∀ ch ∈ chunks, hashPresent s (g ch) = true) →
      chunks.foldl (fun st c => upsertChunk st (f c)) s = s := by
  intro chunks
  induction chunks with
  | nil => intro s _; rfl
  | cons c cs ih =>
    intro s hall
    have h1 : upsertChunk s (f c) = s :=
      upsertChunk_noop (hf c) (hall c (List.mem_cons_self c cs))
    rw [List.foldl_cons, h1]
    exact ih s (fun ch hm => hall ch (List.mem_cons_of_mem c hm))

/-- Ingesting any record never removes a hash. -/
lemma ingestRecord_mono (hashFn : PyStr → PyStr) (embed : PyStr → List ℚ)
    {s : List Row} {h : PyStr} (r : SrcRecord) (hp : hashPresent s h = true) :
    hashPresent (ingestRecord hashFn embed s r) h = true := by
  rw [ingestRecord]
  split
  · exact hp
  · exact foldl_upsert_mono _ _ s hp

/-- After ingesting a record, all its chunk hashes are present. -/
lemma ingestRecord_establishes (hashFn : PyStr → PyStr) (embed : PyStr → List ℚ)
    (s : List Row) (r : SrcRecord) :
    recIngested hashFn (ingestRecord hashFn embed s r) r := by
  intro ch hmem
  rw [ingestRecord]
  split
  · rename_i htext
    rw [chunk, if_pos] at hmem
    · cases hmem
    · exact htext
  · exact foldl_upsert_establishes _ hashFn (fun c => rfl) _ s ch hmem

/-- Re-ingesting a record whose chunk hashes are already present is a no-op. -/
lemma ingestRecord_noop (hashFn : PyStr → PyStr) (embed : PyStr → List ℚ)
    {s : List Row} {r : SrcRecord} (hrec : recIngested hashFn s r) :
    ingestRecord hashFn embed s r = s := by
  rw [ingestRecord]
  split
  · rfl
  · exact foldl_upsert_noop _ hashFn (fun c => rfl) _ s hrec

/-- Running the pipeline never removes a hash. -/
lemma runPipeline_mono (hashFn : PyStr → PyStr) (embed : PyStr → List ℚ)
    {h : PyStr} :
    ∀ (docs : List SrcRecord) (s : List Row), hashPresent s h = true →
      hashPresent (runPipeline hashFn embed s docs) h = true := by
  intro docs
  induction docs with
  | nil => intro s hp; exact hp
  | cons d ds ih =>
    intro s hp
    exact ih _ (ingestRecord_mono hashFn embed d hp)

/-- After running the pipeline, every processed record's chunk hashes are
present in the resulting store. -/
lemma runPipeline_establishes (hashFn : PyStr → PyStr) (embed : PyStr → List ℚ) :
    ∀ (docs : List SrcRecord) (s : List Row) (r : SrcRecord), r ∈ docs →
      recIngested hashFn (runPipeline hashFn embed s docs) r := by
  intro docs
  induction docs with
  | nil => intro s r hmem; cases hmem
  | cons d ds ih =>
    intro s r hmem
    rcases List.mem_cons.1 hmem with e | hmem2
    · subst e
      intro ch hch
      exact runPipeline_mono hashFn embed ds _
        (ingestRecord_establishes hashFn embed s r ch hch)
    · exact ih _ r hmem2

/-- Running the pipeline over records whose chunk hashes are all present
changes nothing. -/
lemma runPipeline_noop (hashFn : PyStr → PyStr) (embed : PyStr → List ℚ) :
    ∀ (docs : List SrcRecord) (s : List Row),
      (∀ r ∈ docs, recIngested hashFn s r) → runPipeline hashFn embed s docs = s := by
  intro docs
  induction docs with
  | nil => intro s _; rfl
  | cons d ds ih =>
    intro s hall
    have h1 : ingestRecord hashFn embed s d = s :=
      ingestRecord_noop hashFn embed (hall d (List.mem_cons_self d ds))
    rw [runPipeline, List.foldl_cons, h1]
    exact ih s (fun r hm => hall r (List.mem_cons_of_mem d hm))

lemma updCand_score_orig (isOrig : Bool) (sn : PyStr) (sc : ℚ) (c : Cand) :
    (updCand isOrig sn sc c).score_orig =
      if isOrig then max c.score_orig sc else c.score_orig := by
  rw [updCand]
  cases isOrig <;> simp <;> split <;> rfl

lemma updCand_score_reph (isOrig : Bool) (sn : PyStr) (sc : ℚ) (c : Cand) :
    (updCand isOrig sn sc c).score_reph =
      if isOrig then c.score_reph else max c.score_reph sc := by
  rw [updCand]
  cases isOrig <;> simp <;> split <;> rfl

lemma scoreO_nil (k : Key) : scoreO [] k = 0 := rfl

lemma scoreR_nil (k : Key) : scoreR [] k = 0 := rfl

lemma scoreO_cons (e : Key × Cand) (m : List (Key × Cand)) (k : Key) :
    scoreO (e :: m) k = if e.1 = k then e.2.score_orig else scoreO m k := by
  by_cases h : e.1 = k <;> simp [scoreO, lookupCand, List.find?_cons, h]

lemma scoreR_cons (e : Key × Cand) (m : List (Key × Cand)) (k : Key) :
    scoreR (e :: m) k = if e.1 = k then e.2.score_reph else scoreR m k := by
  by_cases h : e.1 = k <;> simp [scoreR, lookupCand, List.find?_cons, h]

lemma addOne_scoreO (isOrig : Bool) (m : List (Key × Cand)) (hit : Hit) (k : Key) :
    scoreO (addOne isOrig m hit) k =
      if k = hit.1 then (if isOrig then max (scoreO m k) hit.2.2 else scoreO m k)
      else scoreO m k := by
  induction m with
  | nil =>
    by_cases e : k = hit.1
    · subst e
      simp [addOne, scoreO_cons, scoreO_nil, updCand_score_orig]
    · have e2 : ¬ (hit.1 = k) := fun h => e h.symm
      simp [addOne, scoreO_cons, scoreO_nil, e, e2]
  | cons hd tl ih =>
    rw [addOne]
    by_cases h1 : hd.1 = hit.1
    · rw [if_pos h1]
      by_cases e : k = hit.1
      · have hk : hd.1 = k := by rw [h1, e]
        rw [scoreO_cons, if_pos hk, scoreO_cons, if_pos hk, updCand_score_orig]
        simp [e]
      · have hk : ¬ (hd.1 = k) := by rw [h1]; exact fun h => e h.symm
        rw [scoreO_cons, scoreO_cons]
        simp [hk, e]
    · rw [if_neg h1]
      by_cases hk : hd.1 = k
      · rw [scoreO_cons, if_pos hk, scoreO_cons, if_pos hk]
        have e : ¬ (k = hit.1) := by rw [← hk]; exact fun h => h1 h
        simp [e]
      · rw [scoreO_cons, if_neg hk, scoreO_cons, if_neg hk, ih]

lemma addOne_scoreR (isOrig : Bool) (m : List (Key × Cand)) (hit : Hit) (k : Key) :
    scoreR (addOne isOrig m hit) k =
      if k = hit.1 then (if isOrig then scoreR m k else max (scoreR m k) hit.2.2)
      else scoreR m k := by
  induction m with
  | nil =>
    by_cases e : k = hit.1
    · subst e
      simp [addOne, scoreR_cons, scoreR_nil, updCand_score_reph]
    · have e2 : ¬ (hit.1 = k) := fun h => e h.symm
      simp [addOne, scoreR_cons, scoreR_nil, e, e2]
  | cons hd tl ih =>
    rw [addOne]
    by_cases h1 : hd.1 = hit.1
    · rw [if_pos h1]
      by_cases e : k = hit.1
      · have hk : hd.1 = k := by rw [h1, e]
        rw [scoreR_cons, if_pos hk, scoreR_cons, if_pos hk, updCand_score_reph]
        simp [e]
      · have hk : ¬ (hd.1 = k) := by rw [h1]; exact fun h => e h.symm
        rw [scoreR_cons, scoreR_cons]
        simp [hk, e]
    · rw [if_neg h1]
      by_cases hk : hd.1 = k
      · rw [scoreR_cons, if_pos hk, scoreR_cons, if_pos hk]
        have e : ¬ (k = hit.1) := by rw [← hk]; exact fun h => h1 h
        simp [e]
      · rw [scoreR_cons, if_neg hk, scoreR_cons, if_neg hk, ih]

lemma scoresOf_cons (k : Key) (r : Hit) (rows : List Hit) :
    scoresOf k (r :: rows) =
      if r.1 = k then r.2.2 :: scoresOf k rows else scoresOf k rows := by
  by_cases h : r.1 = k <;> simp [scoresOf, List.filter_cons, h]

lemma addRows_scoreO_true :
    ∀ (rows : List Hit) (m : List (Key × Cand)) (k : Key),
      scoreO (addRows true m rows) k = (scoresOf k rows).foldl max (scoreO m k) := by
  intro rows
  induction rows with
  | nil => intro m k; simp [addRows, scoresOf]
  | cons r rs ih =>
    intro m k
    rw [addRows, List.foldl_cons, scoresOf_cons]
    have step : scoreO (addOne true m r) k =
        if k = r.1 then max (scoreO m k) r.2.2 else scoreO m k := addOne_scoreO true m r k
    by_cases h : r.1 = k
    · rw [if_pos h, List.foldl_cons]
      have hseed : max (scoreO m k) r.2.2 = scoreO (addOne true m r) k := by
        rw [step, if_pos h.symm]
      rw [hseed]
      exact ih (addOne true m r) k
    · rw [if_neg h]
      have hseed : scoreO m k = scoreO (addOne true m r) k := by
        rw [step, if_neg (fun e => h e.symm)]
      rw [hseed]
      exact ih (addOne true m r) k

lemma addRows_scoreO_false :
    ∀ (rows : List Hit) (m : List (Key × Cand)) (k : Key),
      scoreO (addRows false m rows) k = scoreO m k := by
  intro rows
  induction rows with
  | nil => intro m k; rfl
  | cons r rs ih =>
    intro m k
    rw [addRows, List.foldl_cons]
    have step : scoreO (addOne false m r) k = scoreO m k := by
      rw [addOne_scoreO]
      split <;> rfl
    rw [← step]
    exact ih (addOne false m r) k

lemma addRows_scoreR_true :
    ∀ (rows : List Hit) (m : List (Key × Cand)) (k : Key),
      scoreR (addRows true m rows) k = scoreR m k := by
  intro rows
  induction rows with
  | nil => intro m k; rfl
  | cons r rs ih =>
    intro m k
    rw [addRows, List.foldl_cons]
    have step : scoreR (addOne true m r) k = scoreR m k := by
      rw [addOne_scoreR]
      split <;> rfl
    rw [← step]
    exact ih (addOne true m r) k

lemma addRows_scoreR_false :
    ∀ (rows : List Hit) (m : List (Key × Cand)) (k : Key),
      scoreR (addRows false m rows) k = (scoresOf k rows).foldl max (scoreR m k) := by
  intro rows
  induction rows with
  | nil => intro m k; simp [addRows, scoresOf]
  | cons r rs ih =>
    intro m k
    rw [addRows, List.foldl_cons, scoresOf_cons]
    have step : scoreR (addOne false m r) k =
        if k = r.1 then max (scoreR m k) r.2.2 else scoreR m k := by
      rw [addOne_scoreR]
      split <;> rfl
    by_cases h : r.1 = k
    · rw [if_pos h, List.foldl_cons]
      have hseed : max (scoreR m k) r.2.2 = scoreR (addOne false m r) k := by
        rw [step, if_pos h.symm]
      rw [hseed]
      exact ih (addOne false m r) k
    · rw [if_neg h]
      have hseed : scoreR m k = scoreR (addOne false m r) k := by
        rw [step, if_neg (fun e => h e.symm)]
      rw [hseed]
      exact ih (addOne false m r) k

lemma addOne_keys_mem (isOrig : Bool) (hit : Hit) :
    ∀ (m : List (Key × Cand)), hit.1 ∈ m.map Prod.fst →
      (addOne isOrig m hit).map Prod.fst = m.map Prod.fst := by
  intro m
  induction m with
  | nil => intro h; cases h
  | cons hd tl ih =>
    intro h
    rw [addOne]
    by_cases h1 : hd.1 = hit.1
    · rw [if_pos h1, List.map_cons, List.map_cons]
    · rw [if_neg h1, List.map_cons, List.map_cons]
      congr 1
      apply ih
      rw [List.map_cons] at h
      rcases List.mem_cons.1 h with e | h2
      · exact absurd e.symm h1
      · exact h2

lemma addOne_keys_not_mem (isOrig : Bool) (hit : Hit) :
    ∀ (m : List (Key × Cand)), ¬ hit.1 ∈ m.map Prod.fst →
      (addOne isOrig m hit).map Prod.fst = m.map Prod.fst ++ [hit.1] := by
  intro m
  induction m with
  | nil => intro h; rfl
  | cons hd tl ih =>
    intro h
    have h1 : ¬ (hd.1 = hit.1) := by
      intro e
      refine h ?_
      rw [List.map_cons, ← e]
      exact List.mem_cons_self _ _
    rw [addOne, if_neg h1, List.map_cons, List.map_cons, List.cons_append]
    congr 1
    apply ih
    intro h2
    refine h ?_
    rw [List.map_cons]
    exact List.mem_cons_of_mem _ h2

lemma addOne_keys_nodup (isOrig : Bool) (hit : Hit) {m : List (Key × Cand)}
    (hm : (m.map Prod.fst).Nodup) : ((addOne isOrig m hit).map Prod.fst).Nodup := by
  by_cases h : hit.1 ∈ m.map Prod.fst
  · rw [addOne_keys_mem isOrig hit m h]
    exact hm
  · rw [addOne_keys_not_mem isOrig hit m h]
    rw [List.nodup_append]
    refine ⟨hm, List.nodup_singleton _, ?_⟩
    intro a ha hb
    rw [List.mem_singleton] at hb
    exact h (hb ▸ ha)

lemma addRows_keys_nodup (isOrig : Bool) :
    ∀ (rows : List Hit) (m : List (Key × Cand)),
      (m.map Prod.fst).Nodup → ((addRows isOrig m rows).map Prod.fst).Nodup := by
  intro rows
  induction rows with
  | nil => intro m hm; exact hm
  | cons r rs ih =>
    intro m hm
    exact ih (addOne isOrig m r) (addOne_keys_nodup isOrig r hm)

lemma lookupCand_of_mem :
    ∀ {m : List (Key × Cand)} {k : Key} {c : Cand},
      (m.map Prod.fst).Nodup → (k, c) ∈ m → lookupCand m k = some c := by
  intro m
  induction m with
  | nil => intro k c _ hmem; cases hmem
  | cons hd tl ih =>
    intro k c hnd hmem
    have hnd2 := hnd
    rw [List.map_cons, List.nodup_cons] at hnd2
    rcases List.mem_cons.1 hmem with e | hmem2
    · rw [← e]
      simp [lookupCand, List.find?_cons]
    · have hk : k ∈ tl.map Prod.fst := by
        exact List.mem_map.2 ⟨(k, c), hmem2, rfl⟩
      have hne : ¬ (hd.1 = k) := by
        intro e
        exact hnd2.1 (e ▸ hk)
      rw [lookupCand, List.find?_cons]
      simp only [hne, decide_eq_true_eq, if_neg]
      exact ih hnd2.2 hmem2

/-- Every fused candidate's final score is exactly the weighted sum of the
two per-channel `max`-folds (each seeded with the initial 0). -/
lemma fuse_score (ro rr : List Hit) (p : Hit) (hp : p ∈ fuseCandidates ro rr) :
    p.2.2 = W_RAW * chanMax (scoresOf p.1 ro) + W_REPH * chanMax (scoresOf p.1 rr) := by
  rw [fuseCandidates] at hp
  rcases List.mem_map.1 hp with ⟨kc, hkc, he⟩
  have hnd : ((addRows false (addRows true [] ro) rr).map Prod.fst).Nodup :=
    addRows_keys_nodup false rr (addRows true [] ro)
      (addRows_keys_nodup true ro [] (by simp))
  have hlk : lookupCand (addRows false (addRows true [] ro) rr) kc.1 = some kc.2 :=
    lookupCand_of_mem hnd (by simpa using hkc)
  have hso : scoreO (addRows false (addRows true [] ro) rr) kc.1 = kc.2.score_orig := by
    rw [scoreO, hlk]; rfl
  have hsr : scoreR (addRows false (addRows true [] ro) rr) kc.1 = kc.2.score_reph := by
    rw [scoreR, hlk]; rfl
  have ho : kc.2.score_orig = chanMax (scoresOf kc.1 ro) := by
    rw [← hso, addRows_scoreO_false, addRows_scoreO_true, scoreO_nil, chanMax]
  have hr : kc.2.score_reph = chanMax (scoresOf kc.1 rr) := by
    rw [← hsr, addRows_scoreR_false, addRows_scoreR_true, scoreR_nil, chanMax]
  rw [← he]
  simp only []
  rw [ho, hr]

lemma insertDesc_perm (x : Hit) : ∀ l : List Hit, (insertDesc x l).Perm (x :: l) := by
  intro l
  induction l with
  | nil => exact List.Perm.refl _
  | cons y ys ih =>
    rw [insertDesc]
    split
    · exact List.Perm.refl _
    · exact (ih.cons y).trans (List.Perm.swap x y ys)

lemma insertDesc_sorted (x : Hit) :
    ∀ {l : List Hit}, l.Pairwise (fun a b => b.2.2 ≤ a.2.2) →
      (insertDesc x l).Pairwise (fun a b => b.2.2 ≤ a.2.2) := by
  intro l
  induction l with
  | nil => intro _; simp [insertDesc]
  | cons y ys ih =>
    intro hp
    rw [List.pairwise_cons] at hp
    rw [insertDesc]
    split
    · rename_i hgt
      rw [List.pairwise_cons]
      constructor
      · intro z hz
        rcases List.mem_cons.1 hz with e | hz2
        · rw [e]
          exact le_of_lt hgt
        · exact le_trans (hp.1 z hz2) (le_of_lt hgt)
      · rw [List.pairwise_cons]
        exact hp
    · rename_i hle
      rw [List.pairwise_cons]
      constructor
      · intro z hz
        rcases List.mem_cons.1 ((insertDesc_perm x ys).mem_iff.1 hz) with e | hz2
        · rw [e]
          exact not_lt.1 hle
        · exact hp.1 z hz2
      · exact ih hp.2

lemma sortDesc_aux_sorted :
    ∀ (l acc : List Hit), acc.Pairwise (fun a b => b.2.2 ≤ a.2.2) →
      (l.foldl (fun a x => insertDesc x a) acc).Pairwise (fun a b => b.2.2 ≤ a.2.2) := by
  intro l
  induction l with
  | nil => intro acc h; exact h
  | cons x xs ih =>
    intro acc h
    exact ih (insertDesc x acc) (insertDesc_sorted x h)

/-- The stable descending sort is sorted: scores are non-increasing. -/
lemma sortDesc_sorted (l : List Hit) :
    (sortDesc l).Pairwise (fun a b => b.2.2 ≤ a.2.2) :=
  sortDesc_aux_sorted l [] (List.Pairwise.nil)

lemma sortDesc_aux_perm :
    ∀ (l acc : List Hit), (l.foldl (fun a x => insertDesc x a) acc).Perm (acc ++ l) := by
  intro l
  induction l with
  | nil => intro acc; simp
  | cons x xs ih =>
    intro acc
    refine (ih (insertDesc x acc)).trans ?_
    refine (List.Perm.append_right xs (insertDesc_perm x acc)).trans ?_
    exact List.perm_middle.symm

/-- The stable descending sort permutes its input. -/
lemma sortDesc_perm (l : List Hit) : (sortDesc l).Perm l := by
  have h := sortDesc_aux_perm l []
  simpa using h

lemma searchWithVector_empty_filter (store : List Row) (qv : List ℚ) (n : Nat)
    (sv : Option PyStr) (h : store.filter (serviceMatch sv) = []) :
    searchWithVector store qv n sv = [] := by
  simp [searchWithVector, h, dedupKeys, sortDesc]

/-- `search` raises `NoDocuments` exactly when the row count is zero. -/
lemma search_error_iff (store : List Row) (e : PyStr → List ℚ) (r : PyStr → PyStr)
    (q : PyStr) (tk : Option Int) (u : Bool) (sv : Option PyStr) :
    search store e r q tk u sv = .error .noDocuments ↔ count_documents store = 0 := by
  by_cases h : count_documents store = 0
  · simp [search, h]
  · simp [search, h]

/-- On a non-empty store whose rows all fail the service filter, `search`
returns the empty result list instead of raising. -/
lemma search_ok_empty (store : List Row) (e : PyStr → List ℚ) (r : PyStr → PyStr)
    (q : PyStr) (tk : Option Int) (u : Bool) (sv : Option PyStr)
    (hc : ¬ count_documents store = 0) (hf : store.filter (serviceMatch sv) = []) :
    search store e r q tk u sv = .ok [] := by
  have hsv : ∀ qv n, searchWithVector store qv n sv = [] := fun qv n =>
    searchWithVector_empty_filter store qv n sv hf
  by_cases hu : u = true
  · by_cases hrq : (r q ≠ [] ∧ pyStrip (r q) ≠ [] ∧ pyStrip (r q) ≠ pyStrip q)
    · simp [search, hc, hu, hrq, hsv, fuseCandidates, addRows, sortDesc]
    · simp [search, hc, hu, hrq, hsv, fuseCandidates, addRows, sortDesc]
  · simp [search, hc, hu, hsv, fuseCandidates, addRows, sortDesc]

lemma upsertChunk_length (s : List Row) (r : Row) :
    s.length ≤ (upsertChunk s r).length := by
  rcases upsertChunk_cases s r with e | e <;> simp [e]

lemma foldl_upsert_length (f : PyStr → Row) :
    ∀ (chunks : List PyStr) (s : List Row),
      s.length ≤ (chunks.foldl (fun st ch => upsertChunk st (f ch)) s).length := by
  intro chunks
  induction chunks with
  | nil => intro s; exact le_refl _
  | cons c cs ih =>
    intro s
    exact le_trans (upsertChunk_length s (f c)) (ih (upsertChunk s (f c)))

/-- Ingesting one document with at least one word yields a non-empty store. -/
lemma ingest_one_nonempty (hashFn : PyStr → PyStr) (embed : PyStr → List ℚ)
    (doc : SrcRecord) (hw : pySplit (build_text doc) ≠ []) :
    0 < (runPipeline hashFn embed [] [doc]).length := by
  have htext : build_text doc ≠ [] := fun h => hw (h ▸ pySplit_nil)
  have hlen : 0 < (pySplit (build_text doc)).length := List.length_pos.2 hw
  rw [runPipeline, List.foldl_cons, List.foldl_nil, ingestRecord, if_neg htext]
  rw [chunk, if_neg htext, if_neg hw, chunkAux_cons _ _ _ hlen hlen]
  rw [List.foldl_cons]
  refine lt_of_lt_of_le ?_ (foldl_upsert_length _ _ _)
  simp [upsertChunk]

lemma keyPresent_append (store t : List Row) (k : PyStr) :
    keyPresent (store ++ t) k = (keyPresent store k || keyPresent t k) := by
  simp [keyPresent, List.any_append]

/-- One reconciliation run in closed form: the returned count is the number
of staged pairs whose key is absent, and exactly those pairs are appended. -/
lemma ingest_new_char (embed : PyStr → List ℚ) (staged : List (PyStr × PyStr))
    (store : List Row) :
    ingest_new_tickets embed staged store =
      ((staged.filter (fun p => ! keyPresent store p.1)).length,
        store ++ (staged.filter (fun p => ! keyPresent store p.1)).map (reconRow embed)) := by
  by_cases h0 : staged = []
  · subst h0
    simp [ingest_new_tickets]
  · by_cases h1 : staged.filter (fun p => ! keyPresent store p.1) = []
    · simp [ingest_new_tickets, h0, h1]
    · simp [ingest_new_tickets, h0, h1]

/-- After one run, every staged key is present in the store. -/
lemma ingest_new_saturates (embed : PyStr → List ℚ) (staged : List (PyStr × PyStr))
    (store : List Row) {p : PyStr × PyStr} (hp : p ∈ staged) :
    keyPresent (ingest_new_tickets embed staged store).2 p.1 = true := by
  rw [ingest_new_char, keyPresent_append]
  by_cases hk : keyPresent store p.1 = true
  · simp [hk]
  · have hmem : p ∈ staged.filter (fun q => ! keyPresent store q.1) :=
      List.mem_filter.2 ⟨hp, by simp [Bool.not_eq_true _ ▸ hk]⟩
    have hrow : reconRow embed p ∈
        (staged.filter (fun q => ! keyPresent store q.1)).map (reconRow embed) :=
      List.mem_map_of_mem _ hmem
    have hkk : keyPresent ((staged.filter (fun q => ! keyPresent store q.1)).map
        (reconRow embed)) p.1 = true :=
      List.any_eq_true.2 ⟨reconRow embed p, hrow, by simp [reconRow]⟩
    simp [hkk]

/-- The value `search` returns on success is a truncated descending sort. -/
lemma search_ok_shape (store : List Row) (e : PyStr → List ℚ) (r : PyStr → PyStr)
    (q : PyStr) (tk : Option Int) (u : Bool) (sv : Option PyStr) (out : List Hit)
    (hok : search store e r q tk u sv = .ok out) :
    ∃ fused : List Hit,
      out = (sortDesc fused).take (max 1 (min 100 (pyIntOr tk TOP_K_DEFAULT))).toNat := by
  by_cases hc : count_documents store = 0
  · simp [search, hc] at hok
  · simp only [search, if_neg hc] at hok
    exact ⟨_, (Except.ok.inj hok).symm⟩

/-! ## The claims -/

/-- Claim C1.  Chunk ingestion is idempotent: a second pipeline run over the
same unchanged documents leaves the store (hence the row count) unchanged,
for any digest and embedding functions; and upserting a chunk whose hash is
already present is a silent no-op on the store. -/
theorem claimC1 : ∀ (hashFn : PyStr → PyStr) (embed : PyStr → List ℚ)
    (s : List Row) (docs : List SrcRecord),
    runPipeline hashFn embed (runPipeline hashFn embed s docs) docs
      = runPipeline hashFn embed s docs
    ∧ (∀ (st : List Row) (row : Row) (h : PyStr), row.text_hash = some h →
        hashPresent st h = true → upsertChunk st row = st) := by
  intro hashFn embed s docs
  constructor
  · exact runPipeline_noop hashFn embed docs _
      (fun r hr => runPipeline_establishes hashFn embed docs s r hr)
  · intro st row h hh hp
    exact upsertChunk_noop hh hp

/-- Witness for C1 at one concrete document and one concrete duplicate row. -/
theorem claimC1_witness :
    runPipeline (fun w => w) (fun _ => [])
        (runPipeline (fun w => w) (fun _ => []) [] [wDocC1]) [wDocC1]
      = runPipeline (fun w => w) (fun _ => []) [] [wDocC1]
    ∧ upsertChunk [wRowC1] wRowC1 = [wRowC1] :=
  ⟨(claimC1 (fun w => w) (fun _ => []) [] [wDocC1]).1,
   (claimC1 (fun w => w) (fun _ => []) [] [wDocC1]).2 [wRowC1] wRowC1 (pys "h") rfl (by decide)⟩

/-- Claim C2, amended: the loop emits one window per stride-multiple below
the word count, `⌈n / stride⌉` chunks in total, not `⌈(n-W)/stride⌉ + 1`:
both spec examples gain one degenerate trailing chunk (4 chunks, not 3),
and the 7-word scenario yields `["A B C","C D E","E F G","G"]`. -/
theorem claimC2 :
    (∀ (text : PyStr) (size overlap : Nat), pySplit text ≠ [] →
      (chunk text size overlap).length =
        ((pySplit text).length + max 1 (size - overlap) - 1) / max 1 (size - overlap))
    ∧ chunk (pys "A B C D E F G") 3 1 = [pys "A B C", pys "C D E", pys "E F G", pys "G"]
    ∧ (chunk (pys "a b c d e f g h i j") 4 1).length = 4 :=
  ⟨chunk_length, by decide, by decide⟩

/-- Counterexample to C2 as stated: the 7-word scenario document yields four
chunks, not the three the claim lists — the trailing window `"G"` is also
emitted, because the loop runs while `i < len(words)`. -/
theorem claimC2_cex :
    chunk (pys "A B C D E F G") 3 1 ≠ [pys "A B C", pys "C D E", pys "E F G"]
    ∧ (chunk (pys "A B C D E F G") 3 1).length = 4 := by
  constructor
  · decide
  · decide

/-- Witness for C2 on the 7-word scenario document. -/
theorem claimC2_witness :
    (chunk (pys "A B C D E F G") 3 1).length =
      ((pySplit (pys "A B C D E F G")).length + max 1 (3 - 1) - 1) / max 1 (3 - 1) :=
  claimC2.1 (pys "A B C D E F G") 3 1 (by decide)

/-- Claim C3, amended: each channel term of the fusion formula is the
`max`-fold of the channel's scores seeded with the dict initialisation 0,
so a candidate seen only in the raw channel with score S ends with final
score `0.6 * max 0 S` — equal to `0.6 * S` only when `S ≥ 0` (the stored
scores are negated distances, i.e. nonpositive, so the seed matters). -/
theorem claimC3 :
    (∀ (rows_orig rows_reph : List Hit) (p : Hit), p ∈ fuseCandidates rows_orig rows_reph →
      p.2.2 = W_RAW * chanMax (scoresOf p.1 rows_orig) + W_REPH * chanMax (scoresOf p.1 rows_reph))
    ∧ (∀ (k : Key) (sn : PyStr) (S : ℚ),
        fuseCandidates [(k, sn, S)] [] = [(k, sn, W_RAW * max 0 S)]) := by
  constructor
  · exact fuse_score
  · intro k sn S
    simp [fuseCandidates, addRows, addOne, updCand]

/-- Counterexample to C3 as stated: a candidate appearing only in the raw
channel with score `-1` fuses to final score `0`, not `0.6 * (-1)`. -/
theorem claimC3_cex :
    fuseCandidates [(some (pys "T1"), pys "s", -1)] [] = [(some (pys "T1"), pys "s", 0)]
    ∧ (0 : ℚ) ≠ W_RAW * (-1) := by
  constructor
  · norm_num [fuseCandidates, addRows, addOne, updCand]
  · norm_num [W_RAW]

/-- Witness for C3 at a one-hit raw channel with score 0. -/
theorem claimC3_witness :
    ((some (pys "T2"), pys "s", (0 : ℚ)) : Hit).2.2
      = W_RAW * chanMax (scoresOf ((some (pys "T2"), pys "s", (0 : ℚ)) : Hit).1
          [(some (pys "T2"), pys "s", 0)])
        + W_REPH * chanMax (scoresOf ((some (pys "T2"), pys "s", (0 : ℚ)) : Hit).1 []) :=
  claimC3.1 [(some (pys "T2"), pys "s", 0)] [] (some (pys "T2"), pys "s", 0)
    (by simp [fuseCandidates, addRows, addOne, updCand])

/-- Claim C4, amended: the result list is sorted by non-increasing final
score and holds at most `max(1, min(100, topK))` results for any *nonzero*
supplied `topK` — but `topK = 0` is falsy in Python and silently falls back
to the default 5 before clamping, rather than being clamped to 1; in every
case at most 100 results come back. -/
theorem claimC4 : ∀ (store : List Row) (embed : PyStr → List ℚ)
    (rephraseFn : PyStr → PyStr) (q : PyStr) (top_k : Option Int) (use_rephrase : Bool)
    (service : Option PyStr) (out : List Hit),
    search store embed rephraseFn q top_k use_rephrase service = .ok out →
    out.Pairwise (fun a b => b.2.2 ≤ a.2.2)
    ∧ out.length ≤ 100
    ∧ (∀ t : Int, top_k = some t → t ≠ 0 →
        out.length ≤ (max 1 (min 100 t)).toNat) := by
  intro store embed rephraseFn q top_k use_rephrase service out hok
  obtain ⟨fused, hout⟩ :=
    search_ok_shape store embed rephraseFn q top_k use_rephrase service out hok
  subst hout
  refine ⟨?_, ?_, ?_⟩
  · exact (sortDesc_sorted fused).sublist (List.take_sublist _ _)
  · rw [List.length_take]
    have hb : (max 1 (min 100 (pyIntOr top_k TOP_K_DEFAULT))).toNat ≤ 100 := by omega
    exact le_trans (min_le_left _ _) hb
  · intro t ht hne
    subst ht
    rw [List.length_take]
    have hk : pyIntOr (some t) TOP_K_DEFAULT = t := by
      simp [pyIntOr, hne]
    rw [hk]
    exact min_le_left _ _

/-- Counterexample to C4 as stated: with `topK = 0` the claim's clamp gives
1, but `search` returns two results (the falsy 0 fell back to the default 5). -/
theorem claimC4_cex :
    search cexStoreC4 (fun _ => []) (fun t => t) (pys "q") (some 0) false none
      = .ok [(some (pys "K1"), pys "t1", 0), (some (pys "K2"), pys "t2", 0)]
    ∧ ¬ ((2 : Nat) ≤ (max 1 (min 100 (0 : Int))).toNat) := by
  constructor
  · simp [search, searchWithVector, fuseCandidates, addRows, addOne, updCand, sortDesc,
      insertDesc, dedupKeys, argminDist, l2sq, serviceMatch, rowSnippet, count_documents,
      pyIntOr, TOP_K_DEFAULT, cexStoreC4, pys]
  · decide

/-- Witness for C4 at `topK = 3` on the two-row store. -/
theorem claimC4_witness :
    ([(some (pys "K1"), pys "t1", (0 : ℚ)), (some (pys "K2"), pys "t2", 0)] : List Hit).Pairwise
        (fun a b => b.2.2 ≤ a.2.2)
    ∧ ([(some (pys "K1"), pys "t1", (0 : ℚ)), (some (pys "K2"), pys "t2", 0)] : List Hit).length ≤ 100
    ∧ (∀ t : Int, (some (3 : Int) : Option Int) = some t → t ≠ 0 →
        ([(some (pys "K1"), pys "t1", (0 : ℚ)), (some (pys "K2"), pys "t2", 0)] : List Hit).length
          ≤ (max 1 (min 100 t)).toNat) :=
  claimC4 cexStoreC4 (fun _ => []) (fun t => t) (pys "q") (some 3) false none
    [(some (pys "K1"), pys "t1", 0), (some (pys "K2"), pys "t2", 0)]
    (by simp [search, searchWithVector, fuseCandidates, addRows, addOne, updCand, sortDesc,
      insertDesc, dedupKeys, argminDist, l2sq, serviceMatch, rowSnippet, count_documents,
      pyIntOr, TOP_K_DEFAULT, cexStoreC4, pys])

/-- Claim C5.  `search` raises `NoDocuments` iff the row count is zero at
call time; on a non-empty store where no row passes the service filter it
returns the empty list instead of raising; and after ingesting one document
with at least one word into an empty store it no longer raises. -/
theorem claimC5 :
    (∀ (store : List Row) (e : PyStr → List ℚ) (r : PyStr → PyStr) (q : PyStr)
      (tk : Option Int) (u : Bool) (sv : Option PyStr),
      (search store e r q tk u sv = .error .noDocuments ↔ count_documents store = 0))
    ∧ (∀ (store : List Row) (e : PyStr → List ℚ) (r : PyStr → PyStr) (q : PyStr)
      (tk : Option Int) (u : Bool) (sv : Option PyStr),
      ¬ count_documents store = 0 → store.filter (serviceMatch sv) = [] →
      search store e r q tk u sv = .ok [])
    ∧ (∀ (hashFn : PyStr → PyStr) (embedI embedQ : PyStr → List ℚ) (r : PyStr → PyStr)
      (q : PyStr) (tk : Option Int) (u : Bool) (sv : Option PyStr) (doc : SrcRecord),
      pySplit (build_text doc) ≠ [] →
      search (runPipeline hashFn embedI [] [doc]) embedQ r q tk u sv
        ≠ .error .noDocuments) := by
  refine ⟨search_error_iff, search_ok_empty, ?_⟩
  intro hashFn embedI embedQ r q tk u sv doc hw hcontra
  rw [search_error_iff] at hcontra
  have hpos := ingest_one_nonempty hashFn embedI doc hw
  rw [count_documents] at hcontra
  omega

/-- Witness for C5: an empty store raises, and the store obtained by
ingesting one non-empty document does not. -/
theorem claimC5_witness :
    search [] (fun _ => []) (fun t => t) (pys "q") none false none = .error .noDocuments
    ∧ search (runPipeline (fun w => w) (fun _ => []) [] [wDocC5]) (fun _ => [])
        (fun t => t) (pys "q") none false none ≠ .error .noDocuments :=
  ⟨(claimC5.1 [] (fun _ => []) (fun t => t) (pys "q") none false none).2 (by decide),
   claimC5.2.2 (fun w => w) (fun _ => []) (fun _ => []) (fun t => t) (pys "q") none false
     none wDocC5 (by decide)⟩

/-- Claim C6.  Reconciliation inserts exactly the staged pairs whose key is
absent, returns their number (0 on empty staging or nothing new, never an
error), an immediate second run returns 0, and the first run returns a
nonzero count whenever some staged key is new. -/
theorem claimC6 : ∀ (embed : PyStr → List ℚ) (staged : List (PyStr × PyStr))
    (store : List Row),
    (ingest_new_tickets embed staged store).1 =
      (staged.filter (fun p => ! keyPresent store p.1)).length
    ∧ (ingest_new_tickets embed staged store).2 =
      store ++ (staged.filter (fun p => ! keyPresent store p.1)).map (reconRow embed)
    ∧ (ingest_new_tickets embed staged (ingest_new_tickets embed staged store).2).1 = 0
    ∧ ((∃ p ∈ staged, keyPresent store p.1 = false) →
        0 < (ingest_new_tickets embed staged store).1) := by
  intro embed staged store
  refine ⟨by rw [ingest_new_char], by rw [ingest_new_char], ?_, ?_⟩
  · have hfil : staged.filter
        (fun p => ! keyPresent (ingest_new_tickets embed staged store).2 p.1) = [] := by
      rw [List.filter_eq_nil_iff]
      intro p hp
      simp [ingest_new_saturates embed staged store hp]
    rw [ingest_new_char, hfil]
    rfl
  · intro ⟨p, hp, hk⟩
    rw [ingest_new_char]
    have : p ∈ staged.filter (fun q => ! keyPresent store q.1) :=
      List.mem_filter.2 ⟨hp, by simp [hk]⟩
    exact List.length_pos.2 (List.ne_nil_of_mem this)

/-- Witness for C6: one staged pair with a fresh key inserts once. -/
theorem claimC6_witness :
    0 < (ingest_new_tickets (fun _ => ([] : List ℚ)) [(pys "K9", pys "incident text")] []).1 :=
  (claimC6 (fun _ => []) [(pys "K9", pys "incident text")] []).2.2.2
    (by decide)

/-- Claim C10.  Reconciliation rows carry only `issue_key`, `text_chunk` and
`embedding`; `text_hash`, `snippet` and `service` stay NULL, so the
content-hash uniqueness check can never fire for them (NULLs never conflict)
and dedup rests solely on the issue-key filter (the exact characterisation
of the appended rows). -/
theorem claimC10 : ∀ (embed : PyStr → List ℚ) (staged : List (PyStr × PyStr))
    (store : List Row),
    ((ingest_new_tickets embed staged store).2 =
      store ++ (staged.filter (fun p => ! keyPresent store p.1)).map (reconRow embed))
    ∧ (∀ row ∈ ((ingest_new_tickets embed staged store).2).drop store.length,
        row.text_hash = none ∧ row.snippet = none ∧ row.service = none)
    ∧ (∀ row : Row, row.text_hash = none →
        ∀ s : List Row, s.any (hashMatches row.text_hash) = false) := by
  intro embed staged store
  refine ⟨by rw [ingest_new_char], ?_, ?_⟩
  · intro row hrow
    rw [ingest_new_char] at hrow
    simp only [List.drop_left] at hrow
    rcases List.mem_map.1 hrow with ⟨p, _, he⟩
    rw [← he]
    exact ⟨rfl, rfl, rfl⟩
  · intro row hnone s
    rw [hnone]
    simp [hashMatches]

/-- Witness for C10 at one concrete staged pair over the empty store. -/
theorem claimC10_witness :
    (reconRow (fun _ => ([] : List ℚ)) (pys "K9", pys "t")).text_hash = none
    ∧ (reconRow (fun _ => ([] : List ℚ)) (pys "K9", pys "t")).snippet = none
    ∧ (reconRow (fun _ => ([] : List ℚ)) (pys "K9", pys "t")).service = none :=
  (claimC10 (fun _ => []) [(pys "K9", pys "t")] []).2.1
    (reconRow (fun _ => []) (pys "K9", pys "t")) (by decide)

/-- Claim C7, amended: the rephrase operation is total (the model needs no
error case) and on every failure path — a raised exception, a body without
a `"response"` field, or a response that strips to empty — it returns the
*stripped* input text, hence the input unchanged exactly when it carries no
leading or trailing whitespace. -/
theorem claimC7 :
    (∀ (text : PyStr) (max_len : Nat) (outcome : LLMResult), degradedOutcome outcome →
      rephrase_issue text max_len outcome = pyStrip text)
    ∧ (∀ (text : PyStr) (max_len : Nat) (outcome : LLMResult), degradedOutcome outcome →
        pyStrip text = text → rephrase_issue text max_len outcome = text) := by
  have h1 : ∀ (text : PyStr) (max_len : Nat) (outcome : LLMResult), degradedOutcome outcome →
      rephrase_issue text max_len outcome = pyStrip text := by
    intro text max_len outcome hdeg
    match outcome, hdeg with
    | .fail, _ =>
      rw [rephrase_issue]
      split
      · rfl
      · rfl
    | .ok none, _ =>
      rw [rephrase_issue]
      split
      · rfl
      · rfl
    | .ok (some resp), hr =>
      rw [rephrase_issue]
      split
      · rfl
      · simp only [Option.getD_some]
        have hr2 : pyStrip resp = [] := hr
        rw [if_pos hr2]
  refine ⟨h1, ?_⟩
  intro text max_len outcome hdeg htrim
  rw [h1 text max_len outcome hdeg, htrim]

/-- Counterexample to C7 as stated: on failure an input with surrounding
whitespace comes back stripped, not unchanged. -/
theorem claimC7_cex :
    rephrase_issue (pys " provider timeout while processing payment ") 600 .fail
      = pys "provider timeout while processing payment"
    ∧ pys " provider timeout while processing payment "
      ≠ pys "provider timeout while processing payment" := by
  constructor
  · decide
  · decide

/-- Witness for C7 on an already-stripped input, both for a raised
exception and for a whitespace-only provider response. -/
theorem claimC7_witness :
    rephrase_issue (pys "database connection pool exhausted under load") 600 .fail
      = pys "database connection pool exhausted under load"
    ∧ rephrase_issue (pys "database connection pool exhausted under load") 600
        (.ok (some (pys "   ")))
      = pys "database connection pool exhausted under load" :=
  ⟨claimC7.2 (pys "database connection pool exhausted under load") 600 .fail
      True.intro (by decide),
   claimC7.2 (pys "database connection pool exhausted under load") 600
      (.ok (some (pys "   "))) rfl (by decide)⟩

/-- Claim C8, amended: a window size at most the overlap is *not* rejected —
no `ConfigError` exists in the code; instead the stride is silently clamped
to `max 1 (W - O) = 1`, so iteration still terminates, emitting one window
per word. -/
theorem claimC8 : ∀ (text : PyStr) (size overlap : Nat), size ≤ overlap →
    (chunk text size overlap).length = (pySplit text).length := by
  intro text size overlap hle
  by_cases ht : text = []
  · subst ht
    rfl
  · by_cases hw : pySplit text = []
    · rw [chunk, if_neg ht, hw]
      simp [hw]
    · rw [chunk_length text size overlap hw]
      have hst : max 1 (size - overlap) = 1 := by
        rw [Nat.sub_eq_zero_of_le hle, Nat.max_zero]
      rw [hst]
      omega

/-- Counterexample to C8 as stated: `chunk` with `W = 2 ≤ O = 3` raises
nothing and happily produces windows at stride 1. -/
theorem claimC8_cex :
    chunk (pys "a b") 2 3 = [pys "a b", pys "b"] := by
  decide

/-- Witness for C8 at `W = 2`, `O = 3` on a three-word text. -/
theorem claimC8_witness :
    (chunk (pys "a b c") 2 3).length = (pySplit (pys "a b c")).length :=
  claimC8 (pys "a b c") 2 3 (by decide)

/-- Claim C9, amended: `ensure_schema` is idempotent and creates the table
and both indexes when absent, but it performs *no* dimension check: an
existing table with any (possibly incompatible) vector dimension is left
unchanged and no `SchemaError` is raised (none exists in the code). -/
theorem claimC9 :
    (∀ (dim : Nat) (s : DBSchema), ensure_schema dim (ensure_schema dim s) = ensure_schema dim s)
    ∧ (∀ (dim : Nat) (b1 b2 : Bool),
        ensure_schema dim ⟨none, b1, b2⟩ = ⟨some dim, true, true⟩)
    ∧ (∀ (dim d0 : Nat) (b1 b2 : Bool),
        ensure_schema dim ⟨some d0, b1, b2⟩ = ⟨some d0, true, true⟩) := by
  refine ⟨?_, fun dim b1 b2 => rfl, fun dim d0 b1 b2 => rfl⟩
  intro dim s
  cases s with
  | mk td i1 i2 => cases td <;> rfl

/-- Counterexample to C9 as stated: re-running with dimension 384 against a
table created with dimension 768 succeeds silently, keeping the old
dimension, instead of failing with `SchemaError`. -/
theorem claimC9_cex :
    ensure_schema 384 ⟨some 768, true, true⟩ = ⟨some 768, true, true⟩ := rfl

end RCA
